import Mathlib

/-!
Shallow embedding of the interactive core of the hex-ui repository
(src/app.rs), together with proofs about its hit-testing geometry and
its per-event interaction loop.  The external collaborators of the core
(the hexgame rules engine, the mcts search oracle and the SmallRng
random source) are not part of the repository; they are modelled either
abstractly (as function parameters) or, where a claim needs their
spec-level contract, by definitions whose doc comments say so.
Floating-point arithmetic of the source is modelled by exact rational
arithmetic.
-/

namespace HexUi

/-- Player color from the external hexgame crate; Black is rendered Red and
White is rendered Blue by the UI. -/
inductive Color where
  | black
  | white
deriving DecidableEq

/-- Game status from the external hexgame crate: Ongoing, or Finished with a winner. -/
inductive Status where
  | ongoing
  | finished (winner : Color)
deriving DecidableEq

/-- Grid coordinate (x, y) of one cell (hexgame Coords). -/
abbrev Coord := ℕ × ℕ

/-- The game session driven by the UI (the hexgame Game inside MctsHexGame):
board size, board occupancy, current player and status.  The board is the
size × size mapping from coordinates to optional occupants. -/
structure Session where
  size : ℕ
  board : Coord → Option Color
  currentPlayer : Color
  status : Status

/-- A continuous 2-D position (egui Pos2), with exact rational components. -/
abbrev Pos := ℚ × ℚ

/-- The constant HEX_SIZE = 40.0 of app.rs: the cell size used by the widget. -/
def HEX_SIZE : ℚ := 40

/-- Cell-center mapping: the pos closure of HexWidget::draw_game, generalised
over the cell size cs (the source instantiates cs = HEX_SIZE).  Pixel x is
cs * x + y * cs * 0.5, pixel y is cs * y * 0.87, both offset by the base
position (the origin). -/
def posC (cs : ℚ) (base : Pos) (x y : ℕ) : Pos :=
  (base.1 + (cs * (x : ℚ) + (y : ℚ) * cs * (1/2)), base.2 + cs * (y : ℚ) * (87/100))

/-- Squared Euclidean distance between two positions (egui Pos2::distance_sq). -/
def distSq (p q : Pos) : ℚ :=
  (p.1 - q.1) * (p.1 - q.1) + (p.2 - q.2) * (p.2 - q.2)

/-- Squared distance from the cursor to the center of cell c. -/
def cellDistSq (cs : ℚ) (cursor base : Pos) (c : Coord) : ℚ :=
  distSq cursor (posC cs base c.1 c.2)

/-- The largest finite f32 value, the initial value of closest_distance in
draw_game, as an exact rational. -/
def f32MAX : ℚ := 2 ^ 128 - 2 ^ 104

/-- One iteration of the hit-testing scan of draw_game: the candidate cell c
replaces the current best exactly when its squared distance is below the
squared selection radius rsq and strictly below the best distance so far. -/
def hitStep (d : Coord → ℚ) (rsq : ℚ) (st : Option Coord × ℚ) (c : Coord) :
    Option Coord × ℚ :=
  if d c < rsq ∧ d c < st.2 then (some c, d c) else st

/-- The scan order of draw_game: x ascending in the outer loop, y ascending in
the inner loop. -/
def scanCells (size : ℕ) : List Coord :=
  (List.range size).flatMap (fun x => (List.range size).map (fun y => (x, y)))

/-- The hit-testing scan folded over a list of cells from a starting state. -/
def hitFold (d : Coord → ℚ) (rsq : ℚ) (l : List Coord) (st : Option Coord × ℚ) :
    Option Coord × ℚ :=
  l.foldl (hitStep d rsq) st

/-- Nearest-cell hit-testing of draw_game, generalised over the cell size cs:
scan all size × size cells in scan order, keeping the strictly closest center
within the selection radius, starting from no cell and distance f32::MAX. -/
def nearestCellC (cs : ℚ) (cursor : Pos) (size : ℕ) (base : Pos) : Option Coord :=
  (hitFold (cellDistSq cs cursor base) (cs * cs) (scanCells size) (none, f32MAX)).1

/-- Hit-testing as instantiated by draw_game, with cell size HEX_SIZE. -/
def nearestCell (cursor : Pos) (size : ℕ) (base : Pos) : Option Coord :=
  nearestCellC HEX_SIZE cursor size base

/-- Strict-order comparison of scan positions: cell a is visited before cell b
exactly when a.1 is smaller, or the first components agree and a.2 is smaller. -/
def lexLt (a b : Coord) : Prop := a.1 < b.1 ∨ (a.1 = b.1 ∧ a.2 < b.2)

lemma distSq_nonneg (p q : Pos) : 0 ≤ distSq p q :=
  add_nonneg (mul_self_nonneg _) (mul_self_nonneg _)

lemma distSq_eq_zero (p q : Pos) (h : distSq p q = 0) : p = q := by
  unfold distSq at h
  have h1 : p.1 - q.1 = 0 := by
    nlinarith [mul_self_nonneg (p.1 - q.1), mul_self_nonneg (p.2 - q.2)]
  have h2 : p.2 - q.2 = 0 := by
    nlinarith [mul_self_nonneg (p.1 - q.1), mul_self_nonneg (p.2 - q.2)]
  rw [Prod.ext_iff]
  exact ⟨by linarith, by linarith⟩

lemma posC_inj (cs : ℚ) (hcs : cs ≠ 0) (base : Pos) (x y x' y' : ℕ)
    (h : posC cs base x y = posC cs base x' y') : x = x' ∧ y = y' := by
  unfold posC at h
  rw [Prod.ext_iff] at h
  obtain ⟨h1, h2⟩ := h
  have hyq : cs * (y : ℚ) * (87/100) = cs * (y' : ℚ) * (87/100) := by linarith
  have hy : (y : ℚ) = (y' : ℚ) := by
    have hy1 : cs * (y : ℚ) = cs * (y' : ℚ) :=
      mul_right_cancel₀ (by norm_num) hyq
    exact mul_left_cancel₀ hcs hy1
  have hx : (x : ℚ) = (x' : ℚ) := by
    have hx1 : cs * (x : ℚ) = cs * (x' : ℚ) := by
      have := h1
      rw [hy] at this
      linarith
    exact mul_left_cancel₀ hcs hx1
  exact ⟨Nat.cast_injective hx, Nat.cast_injective hy⟩

lemma mem_scanCells (size : ℕ) (c : Coord) :
    c ∈ scanCells size ↔ c.1 < size ∧ c.2 < size := by
  obtain ⟨x, y⟩ := c
  simp only [scanCells, List.mem_flatMap, List.mem_map, List.mem_range, Prod.mk.injEq]
  constructor
  · rintro ⟨a, ha, b, hb, rfl, rfl⟩
    exact ⟨ha, hb⟩
  · rintro ⟨hx, hy⟩
    exact ⟨x, hx, y, hy, rfl, rfl⟩

lemma pairwise_scanCells (size : ℕ) : (scanCells size).Pairwise lexLt := by
  unfold scanCells
  rw [List.pairwise_flatMap]
  constructor
  · intro a _
    rw [List.pairwise_map]
    exact (List.pairwise_lt_range size).imp (fun h => Or.inr ⟨rfl, h⟩)
  · refine (List.pairwise_lt_range size).imp ?_
    intro a b hab x hx y hy
    simp only [List.mem_map, List.mem_range] at hx hy
    obtain ⟨ya, _, rfl⟩ := hx
    obtain ⟨yb, _, rfl⟩ := hy
    exact Or.inl hab

section HitLemmas

variable (d : Coord → ℚ) (rsq : ℚ)

lemma hitStep_of_fail {st : Option Coord × ℚ} {a : Coord}
    (h : ¬ (d a < rsq ∧ d a < st.2)) : hitStep d rsq st a = st := by
  unfold hitStep
  exact if_neg h

lemma hitStep_fst_none {st : Option Coord × ℚ} {a : Coord}
    (h : (hitStep d rsq st a).1 = none) :
    ¬ (d a < rsq ∧ d a < st.2) ∧ hitStep d rsq st a = st := by
  by_cases hc : d a < rsq ∧ d a < st.2
  · unfold hitStep at h
    rw [if_pos hc] at h
    exact absurd h (by simp)
  · exact ⟨hc, hitStep_of_fail d rsq hc⟩

lemma hitStep_snd_le (st : Option Coord × ℚ) (a : Coord) :
    (hitStep d rsq st a).2 ≤ st.2 := by
  unfold hitStep
  by_cases hc : d a < rsq ∧ d a < st.2
  · rw [if_pos hc]
    exact le_of_lt hc.2
  · rw [if_neg hc]

lemma hitStep_snd_le_d {st : Option Coord × ℚ} {a : Coord} (ha : d a < rsq) :
    (hitStep d rsq st a).2 ≤ d a := by
  unfold hitStep
  by_cases hc : d a < rsq ∧ d a < st.2
  · rw [if_pos hc]
  · rw [if_neg hc]
    push_neg at hc
    exact hc ha

lemma hitFold_snd_le (l : List Coord) (st : Option Coord × ℚ) :
    (hitFold d rsq l st).2 ≤ st.2 := by
  induction l generalizing st with
  | nil => exact le_refl _
  | cons a rest ih =>
    calc (hitFold d rsq (a :: rest) st).2
        = (hitFold d rsq rest (hitStep d rsq st a)).2 := rfl
      _ ≤ (hitStep d rsq st a).2 := ih _
      _ ≤ st.2 := hitStep_snd_le d rsq st a

lemma hitFold_snd_le_mem (l : List Coord) (st : Option Coord × ℚ) :
    ∀ c ∈ l, d c < rsq → (hitFold d rsq l st).2 ≤ d c := by
  induction l generalizing st with
  | nil => intro c hc; exact absurd hc (by simp)
  | cons a rest ih =>
    intro c hc hrad
    rcases List.mem_cons.mp hc with rfl | hmem
    · calc (hitFold d rsq (c :: rest) st).2
          = (hitFold d rsq rest (hitStep d rsq st c)).2 := rfl
        _ ≤ (hitStep d rsq st c).2 := hitFold_snd_le d rsq rest _
        _ ≤ d c := hitStep_snd_le_d d rsq hrad
    · exact ih _ c hmem hrad

lemma hitFold_fst_none (l : List Coord) (st : Option Coord × ℚ)
    (h : (hitFold d rsq l st).1 = none) : st.1 = none := by
  induction l generalizing st with
  | nil => exact h
  | cons a rest ih =>
    have hstep : (hitStep d rsq st a).1 = none := ih _ h
    rcases hitStep_fst_none d rsq hstep with ⟨_, heq⟩
    rw [heq] at hstep
    exact hstep

lemma hitFold_of_fail (l : List Coord) (st : Option Coord × ℚ)
    (h : ∀ c ∈ l, ¬ (d c < rsq ∧ d c < st.2)) : hitFold d rsq l st = st := by
  induction l generalizing st with
  | nil => rfl
  | cons a rest ih =>
    have ha : hitStep d rsq st a = st := hitStep_of_fail d rsq (h a (by simp))
    calc hitFold d rsq (a :: rest) st
        = hitFold d rsq rest (hitStep d rsq st a) := rfl
      _ = hitFold d rsq rest st := by rw [ha]
      _ = st := ih _ (fun c hc => h c (List.mem_cons_of_mem a hc))

lemma hitFold_none_forall (l : List Coord) (st : Option Coord × ℚ)
    (h : (hitFold d rsq l st).1 = none) :
    ∀ c ∈ l, ¬ (d c < rsq ∧ d c < st.2) := by
  induction l generalizing st with
  | nil => intro c hc; exact absurd hc (by simp)
  | cons a rest ih =>
    have hstep : (hitStep d rsq st a).1 = none :=
      hitFold_fst_none d rsq rest _ h
    rcases hitStep_fst_none d rsq hstep with ⟨hfail, heq⟩
    intro c hc
    rcases List.mem_cons.mp hc with rfl | hmem
    · exact hfail
    · have h1 : (hitFold d rsq rest (hitStep d rsq st a)).1 = none := h
      rw [heq] at h1
      exact ih st h1 c hmem

lemma hitFold_inv (l : List Coord) (st : Option Coord × ℚ)
    (h0 : ∀ c0, st.1 = some c0 → st.2 = d c0 ∧ d c0 < rsq) :
    ∀ c, (hitFold d rsq l st).1 = some c →
      (hitFold d rsq l st).2 = d c ∧ d c < rsq := by
  induction l generalizing st with
  | nil => exact h0
  | cons a rest ih =>
    refine ih (hitStep d rsq st a) ?_
    intro c0 hc0
    unfold hitStep at hc0 ⊢
    by_cases hc : d a < rsq ∧ d a < st.2
    · rw [if_pos hc] at hc0 ⊢
      simp only at hc0
      obtain rfl : a = c0 := by
        have := hc0
        simpa using this
      exact ⟨rfl, hc.1⟩
    · rw [if_neg hc] at hc0 ⊢
      exact h0 c0 hc0

lemma hitFold_some_split (l : List Coord) (st : Option Coord × ℚ) (c : Coord)
    (h : (hitFold d rsq l st).1 = some c) :
    st.1 = some c ∨
      ∃ l₁ l₂, l = l₁ ++ c :: l₂ ∧ d c < rsq ∧ d c < st.2 ∧
        ∀ a ∈ l₁, d a < rsq → d c < d a := by
  induction l generalizing st with
  | nil => exact Or.inl h
  | cons a rest ih =>
    rcases ih (hitStep d rsq st a) h with hsome | ⟨r₁, r₂, hsplit, hrad, hlt, hall⟩
    · by_cases hc : d a < rsq ∧ d a < st.2
      · unfold hitStep at hsome
        rw [if_pos hc] at hsome
        simp only at hsome
        obtain rfl : a = c := by simpa using hsome
        exact Or.inr ⟨[], rest, rfl, hc.1, hc.2, by simp⟩
      · rw [hitStep_of_fail d rsq hc] at hsome
        exact Or.inl hsome
    · refine Or.inr ⟨a :: r₁, r₂, by rw [hsplit]; rfl, hrad, ?_, ?_⟩
      · exact lt_of_lt_of_le hlt (hitStep_snd_le d rsq st a)
      · intro x hx hxrad
        rcases List.mem_cons.mp hx with rfl | hmem
        · exact lt_of_lt_of_le (lt_of_lt_of_le hlt (hitStep_snd_le_d d rsq hxrad))
            (le_refl _)
        · exact hall x hmem hxrad

end HitLemmas

example : nearestCell (0, 0) 1 (0, 0) = some (0, 0) := by
  norm_num [nearestCell, nearestCellC, hitFold, scanCells, hitStep, cellDistSq,
    distSq, posC, f32MAX, HEX_SIZE, List.range_succ]
example : nearestCell (20, 0) 2 (0, 0) = some (0, 0) := by
  norm_num [nearestCell, nearestCellC, hitFold, scanCells, hitStep, cellDistSq,
    distSq, posC, f32MAX, HEX_SIZE, List.range_succ]
example : nearestCell (500, 500) 2 (0, 0) = none := by
  norm_num [nearestCell, nearestCellC, hitFold, scanCells, hitStep, cellDistSq,
    distSq, posC, f32MAX, HEX_SIZE, List.range_succ]
example : nearestCell (0, 0) 0 (0, 0) = none := by
  norm_num [nearestCell, nearestCellC, hitFold, scanCells, hitStep, cellDistSq,
    distSq, posC, f32MAX, HEX_SIZE, List.range_succ]
example : posC 40 (0, 0) 1 1 = (60, 174/5) := by
  norm_num [posC]

lemma distSq_self (p : Pos) : distSq p p = 0 := by
  unfold distSq
  ring

lemma nearestCellC_some_bounds_min (cs : ℚ) (cursor base : Pos) (size : ℕ)
    (c : Coord) (h : nearestCellC cs cursor size base = some c) :
    (c.1 < size ∧ c.2 < size) ∧ cellDistSq cs cursor base c < cs * cs ∧
      ∀ c', c'.1 < size → c'.2 < size →
        cellDistSq cs cursor base c ≤ cellDistSq cs cursor base c' := by
  have hinv := hitFold_inv (cellDistSq cs cursor base) (cs * cs) (scanCells size)
    (none, f32MAX) (by intro c0 hc0; exact absurd hc0 (by simp)) c h
  have hsplit := hitFold_some_split (cellDistSq cs cursor base) (cs * cs)
    (scanCells size) (none, f32MAX) c h
  rcases hsplit with hnone | ⟨l₁, l₂, hsp, hrad, _, _⟩
  · exact absurd hnone (by simp)
  · have hmem : c ∈ scanCells size := by
      rw [hsp]
      exact List.mem_append.mpr (Or.inr (List.mem_cons_self _ _))
    refine ⟨(mem_scanCells size c).mp hmem, hrad, ?_⟩
    intro c' h1 h2
    by_cases hc' : cellDistSq cs cursor base c' < cs * cs
    · have hle := hitFold_snd_le_mem (cellDistSq cs cursor base) (cs * cs)
        (scanCells size) (none, f32MAX) c' ((mem_scanCells size c').mpr ⟨h1, h2⟩) hc'
      rw [hinv.1] at hle
      exact hle
    · exact le_of_lt (lt_of_lt_of_le hrad (le_of_not_lt hc'))

/-- C4: for every pointer position, board size in 0–17 and cell size (whose
squared selection radius fits under the f32::MAX sentinel, as every finite f32
cell size does), nearest-cell hit-testing scans all size × size coordinates
and (a) any returned coordinate is in bounds, strictly within the selection
radius, and of minimum squared distance among all scanned cells, (b) if no
cell passes the strict radius test the result is none rather than an error,
(c) if some cell passes the radius test a cell is returned, and (d) size 0
always yields none. -/
theorem C4_nearest_cell_min_within_radius (cs : ℚ) (cursor base : Pos)
    (size : ℕ) (hsize : size ≤ 17) (hfit : cs * cs ≤ f32MAX) :
    (∀ c, nearestCellC cs cursor size base = some c →
      (c.1 < size ∧ c.2 < size) ∧ cellDistSq cs cursor base c < cs * cs ∧
        ∀ c', c'.1 < size → c'.2 < size →
          cellDistSq cs cursor base c ≤ cellDistSq cs cursor base c') ∧
    ((∀ c, c.1 < size → c.2 < size → ¬ cellDistSq cs cursor base c < cs * cs) →
      nearestCellC cs cursor size base = none) ∧
    (∀ c0, c0.1 < size → c0.2 < size → cellDistSq cs cursor base c0 < cs * cs →
      (nearestCellC cs cursor size base).isSome = true) ∧
    (size = 0 → nearestCellC cs cursor size base = none) := by
  refine ⟨fun c h => nearestCellC_some_bounds_min cs cursor base size c h, ?_, ?_, ?_⟩
  · intro hall
    have hfail : ∀ c ∈ scanCells size,
        ¬ (cellDistSq cs cursor base c < cs * cs ∧
           cellDistSq cs cursor base c < ((none, f32MAX) : Option Coord × ℚ).2) := by
      intro c hc hand
      have hb := (mem_scanCells size c).mp hc
      exact hall c hb.1 hb.2 hand.1
    unfold nearestCellC
    rw [hitFold_of_fail _ _ _ _ hfail]
  · intro c0 h1 h2 hrad
    cases hres : nearestCellC cs cursor size base with
    | some c => rfl
    | none =>
      have hforall := hitFold_none_forall (cellDistSq cs cursor base) (cs * cs)
        (scanCells size) (none, f32MAX) hres c0 ((mem_scanCells size c0).mpr ⟨h1, h2⟩)
      exact absurd ⟨hrad, lt_of_lt_of_le hrad hfit⟩ hforall
  · intro h0
    subst h0
    rfl

theorem C4_witness :
    (1 : ℕ) ≤ 17 ∧ (40 : ℚ) * 40 ≤ f32MAX ∧
    ((∀ c, nearestCellC 40 (0, 0) 1 (0, 0) = some c →
      (c.1 < 1 ∧ c.2 < 1) ∧ cellDistSq 40 (0, 0) (0, 0) c < 40 * 40 ∧
        ∀ c', c'.1 < 1 → c'.2 < 1 →
          cellDistSq 40 (0, 0) (0, 0) c ≤ cellDistSq 40 (0, 0) (0, 0) c') ∧
    ((∀ c, c.1 < 1 → c.2 < 1 → ¬ cellDistSq 40 (0, 0) (0, 0) c < 40 * 40) →
      nearestCellC 40 (0, 0) 1 (0, 0) = none) ∧
    (∀ c0, c0.1 < 1 → c0.2 < 1 → cellDistSq 40 (0, 0) (0, 0) c0 < 40 * 40 →
      (nearestCellC 40 (0, 0) 1 (0, 0)).isSome = true) ∧
    ((1 : ℕ) = 0 → nearestCellC 40 (0, 0) 1 (0, 0) = none)) :=
  ⟨by norm_num, by norm_num [f32MAX],
    C4_nearest_cell_min_within_radius 40 (0, 0) (0, 0) 1 (by norm_num)
      (by norm_num [f32MAX])⟩

/-- C7: for every board size in 1..=17 and every in-bounds coordinate,
hit-testing applied to the exact center position of that cell returns that
same coordinate. -/
theorem C7_center_hits_own_cell (size x y : ℕ) (base : Pos) (h1 : 1 ≤ size)
    (h17 : size ≤ 17) (hx : x < size) (hy : y < size) :
    nearestCell (posC HEX_SIZE base x y) size base = some (x, y) := by
  have hd0 : cellDistSq HEX_SIZE (posC HEX_SIZE base x y) base (x, y) = 0 :=
    distSq_self _
  cases hres : nearestCell (posC HEX_SIZE base x y) size base with
  | none =>
    have hforall := hitFold_none_forall
      (cellDistSq HEX_SIZE (posC HEX_SIZE base x y) base) (HEX_SIZE * HEX_SIZE)
      (scanCells size) (none, f32MAX) hres (x, y)
      ((mem_scanCells size (x, y)).mpr ⟨hx, hy⟩)
    rw [hd0] at hforall
    exact absurd ⟨by norm_num [HEX_SIZE], by norm_num [f32MAX]⟩ hforall
  | some c =>
    have hmin := nearestCellC_some_bounds_min HEX_SIZE (posC HEX_SIZE base x y)
      base size c hres
    have hle := hmin.2.2 (x, y) hx hy
    rw [hd0] at hle
    have hzero : cellDistSq HEX_SIZE (posC HEX_SIZE base x y) base c = 0 :=
      le_antisymm hle (distSq_nonneg _ _)
    have hpos : posC HEX_SIZE base x y = posC HEX_SIZE base c.1 c.2 :=
      distSq_eq_zero _ _ hzero
    have hcxy := posC_inj HEX_SIZE (by norm_num [HEX_SIZE]) base x y c.1 c.2 hpos
    have : c = (x, y) := by
      rw [Prod.ext_iff]
      exact ⟨hcxy.1.symm, hcxy.2.symm⟩
    rw [this]

theorem C7_witness :
    (1 : ℕ) ≤ 1 ∧ (1 : ℕ) ≤ 17 ∧ (0 : ℕ) < 1 ∧ (0 : ℕ) < 1 ∧
    nearestCell (posC HEX_SIZE (0, 0) 0 0) 1 (0, 0) = some (0, 0) :=
  ⟨by norm_num, by norm_num, by norm_num, by norm_num,
    C7_center_hits_own_cell 1 0 0 (0, 0) (by norm_num) (by norm_num)
      (by norm_num) (by norm_num)⟩

/-- C8: the cell-center mapping is the affine function whose pixel x is
cellSize * x + 0.5 * cellSize * y and whose pixel y is 0.87 * cellSize * y,
offset by the origin.  It is a total function of its arguments (pure, no
failure mode). -/
theorem C8_cell_center_affine (cs : ℚ) (base : Pos) (x y : ℕ) :
    posC cs base x y =
      (base.1 + (cs * (x : ℚ) + (1/2) * cs * (y : ℚ)),
       base.2 + (87/100) * cs * (y : ℚ)) := by
  unfold posC
  rw [Prod.ext_iff]
  exact ⟨by ring_nf, by ring_nf⟩

/-- C9: hit-testing has a deterministic first-wins tie-break: whenever a cell
is returned, every scanned cell at exactly the same (minimal) squared distance
is the returned cell itself or comes strictly later in scan order (x ascending
in the outer loop, y ascending in the inner loop).  Since the result is a pure
function of cursor, size and base, the hit-test is deterministic. -/
theorem C9_tie_break_first_in_scan_order (cs : ℚ) (cursor base : Pos)
    (size : ℕ) (c : Coord) (hres : nearestCellC cs cursor size base = some c) :
    ∀ c', c'.1 < size → c'.2 < size →
      cellDistSq cs cursor base c' = cellDistSq cs cursor base c →
      c' = c ∨ lexLt c c' := by
  intro c' h1 h2 heq
  have hsplit := hitFold_some_split (cellDistSq cs cursor base) (cs * cs)
    (scanCells size) (none, f32MAX) c hres
  rcases hsplit with hnone | ⟨l₁, l₂, hsp, hrad, _, hall⟩
  · exact absurd hnone (by simp)
  · have hmem : c' ∈ scanCells size := (mem_scanCells size c').mpr ⟨h1, h2⟩
    rw [hsp] at hmem
    rcases List.mem_append.mp hmem with hin1 | hin2
    · have hlt := hall c' hin1 (by rw [heq]; exact hrad)
      rw [heq] at hlt
      exact absurd hlt (lt_irrefl _)
    · rcases List.mem_cons.mp hin2 with hceq | hin3
      · exact Or.inl hceq
      · have hpw := pairwise_scanCells size
        rw [hsp] at hpw
        have hpc := (List.pairwise_append.mp hpw).2.1
        exact Or.inr ((List.pairwise_cons.mp hpc).1 c' hin3)

theorem C9_witness :
    ((1, 0) : Coord) = (0, 0) ∨ lexLt (0, 0) (1, 0) :=
  C9_tie_break_first_in_scan_order 40 (20, 0) (0, 0) 2 (0, 0)
    (by norm_num [nearestCellC, hitFold, scanCells, hitStep, cellDistSq,
      distSq, posC, f32MAX, List.range_succ])
    (1, 0) (by norm_num) (by norm_num)
    (by norm_num [cellDistSq, distSq, posC])

/-- The other color; the rules engine alternates the current player after a
successfully applied move. -/
def Color.other : Color → Color
  | .black => .white
  | .white => .black

/-- Modelled from the spec: MctsHexGame::get_winner of the external hexgame_ai
crate returns the winner once the game status is Finished and nothing while it
is Ongoing. -/
def getWinner (s : Session) : Option Color :=
  match s.status with
  | .ongoing => none
  | .finished w => some w

/-- Type of the external rules engine's move application (hexgame Game::play
reached through MctsHexGame::play): some new session on success, none on a
rejected move, which leaves the session unchanged. -/
def PlayFn : Type := Session → Coord → Option Session

/-- Result of the external search oracle (Mcts::suggest_action): an optional
identifier of the recommended node, and the extraction of the optional action
from a node's content (tree.get_content followed by get_action). -/
structure SearchResult where
  nodeId : Option ℕ
  getAction : ℕ → Option Coord

/-- The fixed search configuration built in draw_game: UctSelection with
exploration parameter 0.5, and ConstIterationCount 10. -/
structure MctsConfig where
  explorationParam : ℚ
  iterations : ℕ

/-- The fixed RNG seed literal of draw_game. -/
def aiSeed : ℕ := 123467123321

/-- Modelled from the spec: SmallRng::seed_from_u64 of the external rand crate
deterministically constructs a random source from a 64-bit seed; the source
state is modelled by the 64-bit seed value itself. -/
def smallRngFromSeed (seed : ℕ) : ℕ := seed % 2 ^ 64

/-- Type of the external search oracle: a pure function of the configuration,
the game session and the random-source state. -/
def OracleFn : Type := MctsConfig → Session → ℕ → SearchResult

/-- The failure modes of the AI stage of draw_game; in the source each is an
expect panic. -/
inductive AiErr where
  | noNodeId
  | noAction
  | aiMoveFailed
deriving DecidableEq

/-- The fixed search configuration values of draw_game. -/
def mctsCfg : MctsConfig := { explorationParam := 1/2, iterations := 10 }

/-- The AI move selection of draw_game: construct a fresh SmallRng from the
constant seed, run the oracle with the fixed configuration, and extract the
recommended action from the content of the recommended node.  The two expect
panics of the source on a missing node id or missing action are modelled as
error values. -/
def mctsSelect (oracle : OracleFn) (s : Session) : Except AiErr Coord :=
  let rng := smallRngFromSeed aiSeed
  let result := oracle mctsCfg s rng
  match result.nodeId with
  | none => .error .noNodeId
  | some nid =>
    match result.getAction nid with
    | none => .error .noAction
    | some a => .ok a

/-- The click handler of draw_game (app.rs lines 216-250): apply the human
move with its result discarded (the ok() call), then, whenever the game has
no winner, select the AI move and apply it.  A panic of the source is
modelled as a returned error alongside the session value current at the
panic. -/
def clickStep (play : PlayFn) (oracle : OracleFn) (s : Session) (c : Coord) :
    Session × Option AiErr :=
  let s1 := (play s c).getD s
  if getWinner s1 = none then
    match mctsSelect oracle s1 with
    | .error e => (s1, some e)
    | .ok a =>
      match play s1 a with
      | none => (s1, some .aiMoveFailed)
      | some s2 => (s2, none)
  else (s1, none)

/-- HexWidget::draw_game for an ongoing game: hit-test the hover position
and, when a cell is resolved and the widget was clicked, run the click
handler; otherwise the session is unchanged.  Painting calls are omitted as
pure rendering. -/
def drawGame (play : PlayFn) (oracle : OracleFn) (s : Session)
    (hover : Option Pos) (clicked : Bool) (base : Pos) :
    Session × Option AiErr :=
  let closest := match hover with
    | some cursor => nearestCell cursor s.size base
    | none => none
  match closest with
  | some c => if clicked then clickStep play oracle s c else (s, none)
  | none => (s, none)

/-- Widget::ui for HexWidget: draw the game while Ongoing; once Finished only
the victory screen is drawn and the session is untouched. -/
def widgetUi (play : PlayFn) (oracle : OracleFn) (s : Session)
    (hover : Option Pos) (clicked : Bool) (base : Pos) :
    Session × Option AiErr :=
  match s.status with
  | .ongoing => drawGame play oracle s hover clicked base
  | .finished _ => (s, none)

/-- The application state of HexGameUi: the current game session and the
configured board size driven by the slider. -/
structure HexGameUi where
  game : Session
  configuredSize : ℕ

/-- Modelled from the spec: MctsHexGame::new of the external hexgame_ai crate,
the new-game construction used by HexGameUi: a fresh session of the given
size with a fully empty board, the fixed starting player and status Ongoing. -/
def mctsHexGameNew (size : ℕ) : Session :=
  { size := size, board := fun _ => none, currentPlayer := .black,
    status := .ongoing }

/-- One frame of input to HexGameUi::update: an optional new slider value
(clamped by the slider widget to 0..=17), whether the reset button was
clicked, the hover position, whether the board area was clicked, and the
layout base offset of the grid. -/
structure FrameInput where
  sliderValue : Option ℕ
  resetClicked : Bool
  hover : Option Pos
  clicked : Bool
  base : Pos

/-- HexGameUi::update: the slider updates the configured size, the reset
button replaces the game with a fresh one of the configured size, and the
central panel then runs the hex widget on the (possibly fresh) game. -/
def updateApp (play : PlayFn) (oracle : OracleFn) (st : HexGameUi)
    (e : FrameInput) : HexGameUi × Option AiErr :=
  let cs := match e.sliderValue with
    | some v => min v 17
    | none => st.configuredSize
  let g1 := if e.resetClicked then mctsHexGameNew cs else st.game
  let r := widgetUi play oracle g1 e.hover e.clicked e.base
  ({ game := r.1, configuredSize := cs }, r.2)

/-- Modelled from the spec: the external rules engine's legal-move
application.  A move is accepted exactly on an ongoing game, in bounds and on
an empty cell; it places the current player's stone and alternates the
current player.  Win detection is external and outside the spec's scope, so
the status is left Ongoing; the core definitions above never rely on this
simplification, which only instantiates theorems quantified over every play
function. -/
def playSpec (s : Session) (c : Coord) : Option Session :=
  if s.status = .ongoing ∧ c.1 < s.size ∧ c.2 < s.size ∧ s.board c = none then
    some { s with
      board := Function.update s.board c (some s.currentPlayer)
      currentPlayer := s.currentPlayer.other }
  else none

/-- A concrete ongoing 2 × 2 session whose cell (0,0) is already occupied. -/
def sessionOccupied : Session :=
  { size := 2, board := Function.update (fun _ => none) (0, 0) (some .white),
    currentPlayer := .black, status := .ongoing }

/-- A concrete well-behaved oracle always recommending cell (1,1). -/
def oracleToCorner : OracleFn :=
  fun _ _ _ => { nodeId := some 0, getAction := fun _ => some (1, 1) }

/-- A concrete broken oracle that never sets a recommended node. -/
def oracleNoNode : OracleFn :=
  fun _ _ _ => { nodeId := none, getAction := fun _ => none }

/-- C1 (code bug): clicking the occupied cell (0,0) of an ongoing game makes
the human move fail, yet draw_game still invokes the AI move selector and
applies the AI move, because the human move's result is discarded by ok()
and the AI stage is guarded only by get_winner: the resulting session
differs from the original (cell (1,1) becomes occupied and the current
player flips), where the claim requires the event to be ignored with no
state change. -/
theorem C1_ai_runs_after_rejected_human_move :
    playSpec sessionOccupied (0, 0) = none ∧
    (clickStep playSpec oracleToCorner sessionOccupied (0, 0)).1.board (1, 1) =
      some Color.black ∧
    sessionOccupied.board (1, 1) = none ∧
    (clickStep playSpec oracleToCorner sessionOccupied (0, 0)).1.currentPlayer =
      Color.white ∧
    sessionOccupied.currentPlayer = Color.black := by
  exact ⟨rfl, rfl, rfl, rfl, rfl⟩

/-- C2: whenever the human move succeeds and the game has no winner, any
failure of the AI stage (missing recommended node, missing recommended
action, or the recommended move rejected by the rules engine) is surfaced as
an error, and the returned session is exactly the post-human-move session:
the human's move stands and the turn advances no further. -/
theorem C2_ai_failure_surfaced_session_intact (play : PlayFn)
    (oracle : OracleFn) (s : Session) (c : Coord) (s1 : Session)
    (hplay : play s c = some s1) (hongoing : getWinner s1 = none) :
    (∀ e, mctsSelect oracle s1 = .error e →
      clickStep play oracle s c = (s1, some e)) ∧
    (∀ a, mctsSelect oracle s1 = .ok a → play s1 a = none →
      clickStep play oracle s c = (s1, some .aiMoveFailed)) := by
  constructor
  · intro e he
    unfold clickStep
    rw [hplay]
    simp [Option.getD, hongoing, he]
  · intro a ha hrej
    unfold clickStep
    rw [hplay]
    simp [Option.getD, hongoing, ha, hrej]

theorem C2_witness :
    clickStep playSpec oracleNoNode (mctsHexGameNew 2) (0, 0) =
      ((playSpec (mctsHexGameNew 2) (0, 0)).getD (mctsHexGameNew 2),
        some AiErr.noNodeId) :=
  (C2_ai_failure_surfaced_session_intact playSpec oracleNoNode
    (mctsHexGameNew 2) (0, 0)
    ((playSpec (mctsHexGameNew 2) (0, 0)).getD (mctsHexGameNew 2)) rfl rfl).1
    AiErr.noNodeId rfl

/-- C3: AI move selection is deterministic: the selection is a pure function
of the game session alone — the iteration budget 10, the exploration
parameter 0.5 and the seed 123467123321 are fixed constants of the
definition, and a fresh random source is constructed from the constant seed
on every invocation — so two invocations from any two application states
holding the same session return the identical result. -/
theorem C3_select_move_deterministic (oracle : OracleFn)
    (st1 st2 : HexGameUi) (h : st1.game = st2.game) :
    mctsSelect oracle st1.game = mctsSelect oracle st2.game := by
  rw [h]

theorem C3_witness :
    mctsSelect oracleToCorner (mctsHexGameNew 5) =
      mctsSelect oracleToCorner (mctsHexGameNew 5) :=
  C3_select_move_deterministic oracleToCorner
    { game := mctsHexGameNew 5, configuredSize := 5 }
    { game := mctsHexGameNew 5, configuredSize := 17 } rfl

/-- C5: once the game status is Finished, a frame of the widget only draws
the victory screen: any pointer event (hover or click) leaves the session
unchanged, so no move is applied and board, current player and status are
all as before. -/
theorem C5_finished_game_ignores_clicks (play : PlayFn) (oracle : OracleFn)
    (s : Session) (hover : Option Pos) (clicked : Bool) (base : Pos)
    (w : Color) (hfin : s.status = .finished w) :
    widgetUi play oracle s hover clicked base = (s, none) := by
  unfold widgetUi
  rw [hfin]

/-- A concrete finished 2 × 2 session with plenty of occupancy. -/
def sessionDone : Session :=
  { size := 2, board := Function.update (fun _ => none) (0, 0) (some .black),
    currentPlayer := .white, status := .finished .black }

theorem C5_witness :
    widgetUi playSpec oracleToCorner sessionDone (some (20, 20)) true (0, 0) =
      (sessionDone, none) :=
  C5_finished_game_ignores_clicks playSpec oracleToCorner sessionDone
    (some (20, 20)) true (0, 0) Color.black rfl

/-- C6: a new-game request with a chosen size at most 17 fully replaces the
session with a fresh one of that size — entirely empty board, status
Ongoing, and the same fixed starting player every time — no matter what the
prior session held (the resulting game does not mention the prior state). -/
theorem C6_reset_replaces_session (play : PlayFn) (oracle : OracleFn)
    (st : HexGameUi) (v : ℕ) (hv : v ≤ 17) :
    (updateApp play oracle st
        { sliderValue := some v, resetClicked := true, hover := none,
          clicked := false, base := (0, 0) }).1.game = mctsHexGameNew v ∧
    (mctsHexGameNew v).size = v ∧
    (∀ c, (mctsHexGameNew v).board c = none) ∧
    (mctsHexGameNew v).currentPlayer = .black ∧
    (mctsHexGameNew v).status = .ongoing := by
  refine ⟨?_, rfl, fun c => rfl, rfl, rfl⟩
  unfold updateApp widgetUi drawGame
  simp [min_eq_left hv, mctsHexGameNew]

/-- An arbitrary dirty application state used to witness reset and frame
theorems. -/
def stJunk : HexGameUi :=
  { game := { size := 3, board := fun _ => some .white, currentPlayer := .white, status := .finished .white },
    configuredSize := 9 }

theorem C6_witness :
    (3 : ℕ) ≤ 17 ∧
    ((updateApp playSpec oracleToCorner stJunk
        { sliderValue := some 3, resetClicked := true, hover := none,
          clicked := false, base := (0, 0) }).1.game = mctsHexGameNew 3 ∧
      (mctsHexGameNew 3).size = 3 ∧
      (∀ c, (mctsHexGameNew 3).board c = none) ∧
      (mctsHexGameNew 3).currentPlayer = .black ∧
      (mctsHexGameNew 3).status = .ongoing) :=
  ⟨by norm_num,
    C6_reset_replaces_session playSpec oracleToCorner stJunk 3 (by norm_num)⟩

lemma widgetUi_no_click (play : PlayFn) (oracle : OracleFn) (s : Session)
    (hover : Option Pos) (base : Pos) :
    widgetUi play oracle s hover false base = (s, none) := by
  obtain ⟨sz, b, p, stat⟩ := s
  cases stat with
  | finished w => rfl
  | ongoing =>
    unfold widgetUi drawGame
    cases hover with
    | none => rfl
    | some cursor =>
      rcases hn : nearestCell cursor sz base with _ | c <;> simp [hn]

lemma updateApp_game_frame (play : PlayFn) (oracle : OracleFn)
    (st : HexGameUi) (e : FrameInput) (hr : e.resetClicked = false)
    (hc : e.clicked = false) :
    (updateApp play oracle st e).1.game = st.game := by
  simp [updateApp, hr, hc, widgetUi_no_click]

/-- C10: frames that click neither the reset button nor the board — in
particular frames that only adjust the size slider — never change the game
session: over any sequence of such frames the board, current player and
status are exactly those of the starting session, since the configured size
is read only when the reset button is clicked. -/
theorem C10_slider_never_touches_game (play : PlayFn) (oracle : OracleFn)
    (st : HexGameUi) (evs : List FrameInput)
    (h : ∀ e ∈ evs, e.resetClicked = false ∧ e.clicked = false) :
    (evs.foldl (fun a e => (updateApp play oracle a e).1) st).game =
      st.game := by
  induction evs generalizing st with
  | nil => rfl
  | cons e rest ih =>
    have he := h e (by simp)
    calc (List.foldl (fun a e => (updateApp play oracle a e).1) st
            (e :: rest)).game
        = (List.foldl (fun a e => (updateApp play oracle a e).1)
            ((updateApp play oracle st e).1) rest).game := rfl
      _ = (updateApp play oracle st e).1.game :=
          ih _ (fun x hx => h x (List.mem_cons_of_mem e hx))
      _ = st.game := updateApp_game_frame play oracle st e he.1 he.2

/-- A frame that only moves the size slider. -/
def frameSlider (v : ℕ) : FrameInput :=
  { sliderValue := some v, resetClicked := false, hover := some (20, 20),
    clicked := false, base := (0, 0) }

theorem C10_witness :
    ([frameSlider 9, frameSlider 3].foldl
        (fun a e => (updateApp playSpec oracleToCorner a e).1) stJunk).game =
      stJunk.game :=
  C10_slider_never_touches_game playSpec oracleToCorner stJunk
    [frameSlider 9, frameSlider 3]
    (by intro e he; rcases List.mem_cons.mp he with rfl | he2
        · exact ⟨rfl, rfl⟩
        · rcases List.mem_cons.mp he2 with rfl | he3
          · exact ⟨rfl, rfl⟩
          · exact absurd he3 (by simp))

end HexUi
